import Mathlib

/-!
# deSEC provider of external-dns: bucket construction, bulk writes and the read path

A shallow embedding of `provider/desec/desec.go` and `provider/desec/api.go`.

* Go strings are byte sequences.  `GoString` is a list whose elements each stand for one
  byte; ASCII text is its own byte sequence, written `"example.com".toList`.
* A Go `map[string]RRSets` is a function from keys to optional buckets.  The order in which
  a `range` statement visits the keys is not fixed by the language, so every loop over the
  map receives the order of that particular loop from an oracle `iter : Nat → List GoString`
  (`iter n` is the key order of the `n`-th `range` statement that is executed).
* A run-time panic (slice bound out of range, index out of range) is `none`.
* A Go `error` is represented by its message text.
-/

namespace Desec

/-! ## Strings -/

/-- A Go string: a sequence of bytes, one list element per byte. -/
abbrev GoString := List Char

/-- Go `strings.HasSuffix`:
`len(s) >= len(suffix) && s[len(s)-len(suffix):] == suffix`. -/
def HasSuffix (s suffix : GoString) : Bool :=
  decide (suffix.length ≤ s.length) && (s.drop (s.length - suffix.length) == suffix)

/-- Scan for the first position, counted from `i`, at which `substr` starts. -/
def indexFrom (substr : GoString) (i : Nat) : GoString → Int
  | [] => if substr.isEmpty then (i : Int) else -1
  | c :: t => if substr.isPrefixOf (c :: t) then (i : Int) else indexFrom substr (i + 1) t

/-- Go `strings.Index`: the index of the first instance of `substr` in `s`, or `-1`. -/
def Index (s substr : GoString) : Int := indexFrom substr 0 s

/-- Go slice expression `s[:hi]`; it panics unless `0 ≤ hi ≤ len(s)`. -/
def sliceTo (s : GoString) (hi : Int) : Option GoString :=
  if 0 ≤ hi ∧ hi ≤ (s.length : Int) then some (s.take hi.toNat) else none

/-! ## Data model (`api.go`, and the fields of `endpoint.Endpoint` that the provider uses) -/

/-- `DNSDomain` of `api.go`. -/
structure DNSDomain where
  Created : GoString
  Published : GoString
  Name : GoString
  MinimumTTL : Int
  Touched : GoString
deriving DecidableEq, Repr

/-- `RRSet` of `api.go` (its field `Type` is `Type_` here, `Type` being reserved).
`Records` is a Go slice whose nil value is kept apart from the empty slice (`none` is
nil), because the two are marshalled differently. -/
structure RRSet where
  Domain : GoString
  SubName : GoString
  Name : GoString
  Type_ : GoString
  Records : Option (List GoString)
  TTL : Int
  Created : GoString
  Touched : GoString
deriving DecidableEq, Repr

/-- `RRSets` of `api.go`; a nil slice and an empty slice are both `[]`. -/
abbrev RRSets := List RRSet

/-- The fields of `endpoint.Endpoint` read or written by the provider. -/
structure Endpoint where
  DNSName : GoString
  Targets : List GoString
  RecordType : GoString
  RecordTTL : Int
deriving DecidableEq, Repr

/-- The fields of `plan.Changes` read by `ApplyChanges`. -/
structure Changes where
  Create : List Endpoint
  UpdateNew : List Endpoint
  Delete : List Endpoint
deriving DecidableEq, Repr

/-- The constant `defaultDesecRecordTTL`. -/
def defaultDesecRecordTTL : Int := 3600

/-! ## The bucket map -/

/-- The Go map `map[string]RRSets`: `none` for a key that is absent. -/
abbrev Bulk := GoString → Option RRSets

/-- The map expression `bulk[domain]`: the zero value (a nil slice) for an absent key. -/
def Bulk.get (bulk : Bulk) (domain : GoString) : RRSets := (bulk domain).getD []

/-- The assignment `bulk[domain] = rrsets`. -/
def Bulk.set (bulk : Bulk) (domain : GoString) (rrsets : RRSets) : Bulk :=
  fun k => if k = domain then some rrsets else bulk k

/-- The map built by `make(map[string]RRSets)` followed by `bulk[d.Name] = RRSets{}` for
every domain of the list. -/
def initBulk (domains : List DNSDomain) : Bulk :=
  domains.foldl (fun bulk d => bulk.set d.Name []) (fun _ => none)

/-- Go `append(s, x)` on a slice that may be nil. -/
def goAppend {α : Type} (s : Option (List α)) (x : α) : Option (List α) :=
  some (s.getD [] ++ [x])

/-! ## `addToBulk` -/

/-- The RRSet that `addToBulk` builds for `change` once `domain` has matched: the TTL
choice, the struct literal with its slice expression
`change.DNSName[:strings.Index(change.DNSName, domain)-1]`, and the loop appending the
targets.  `isConfigured` is `endpoint.TTL.IsConfigured`. -/
def newRRSet (isConfigured : Int → Bool) (change : Endpoint) (domain : GoString) :
    Option RRSet :=
  let ttl := if isConfigured change.RecordTTL then change.RecordTTL else defaultDesecRecordTTL
  match sliceTo change.DNSName (Index change.DNSName domain - 1) with
  | none => none
  | some sub =>
    some { Domain := domain, SubName := sub, Name := change.DNSName,
           Type_ := change.RecordType,
           Records := change.Targets.foldl goAppend (some []),
           TTL := ttl, Created := [], Touched := [] }

/-- The inner loop `for domain, _ := range bulk` of `addToBulk` for one change, the keys
being visited in the order `order`.  Running off the end of the keys is the skip branch
(the change is only logged). -/
def addChange (isConfigured : Int → Bool) (order : List GoString) (bulk : Bulk)
    (change : Endpoint) : Option Bulk :=
  match order with
  | [] => some bulk
  | domain :: rest =>
    if HasSuffix change.DNSName domain then
      match newRRSet isConfigured change domain with
      | none => none
      | some rrset => some (bulk.set domain (bulk.get domain ++ [rrset]))
    else addChange isConfigured rest bulk change

/-- The function `addToBulk`: the outer loop over the changes.  `iter n` is the key order
of the inner loop run for the `n`-th change. -/
def addToBulk (isConfigured : Int → Bool) (iter : Nat → List GoString) (bulk : Bulk) :
    List Endpoint → Option Bulk
  | [] => some bulk
  | change :: rest =>
    match addChange isConfigured (iter 0) bulk change with
    | none => none
    | some bulk1 => addToBulk isConfigured (fun n => iter (n + 1)) bulk1 rest

/-! ## The API client (`api.go`) -/

/-- What the HTTP layer yields for one request built by `request`. -/
inductive Response (α : Type) where
  /-- The call `http.NewRequest` returned an error. -/
  | newRequestError (err : GoString)
  /-- The call `client.Do` returned an error. -/
  | doError (err : GoString)
  /-- A response arrived: its status code, what `io.ReadAll(resp.Body)` gives, and what
  decoding the body as JSON into the target gives. -/
  | reply (status : Int) (readAll : Except GoString GoString) (decode : Except GoString α)

/-- The remote side and the library functions the client relies on: `quote` is the verb
`%q` of `fmt`, `marshal` is `json.Marshal`, and the three remaining fields answer the
requests sent to a URL (with a body for `PUT`). -/
structure Remote where
  quote : GoString → GoString
  marshal : RRSets → Except GoString GoString
  getDomains : GoString → Response (List DNSDomain)
  getRRSets : GoString → Response RRSets
  putRRSets : GoString → GoString → Response RRSets

/-- The constant `baseURL`. -/
def baseURL : GoString := "https://desec.io/api/v1".toList

/-- The method `request`: `send` is the HTTP exchange for the URL that is built.  The
result is the returned error, or the decoded target; `none` is the panic of `path[0]` on
an empty path. -/
def request {α : Type} (quote : GoString → GoString) (send : GoString → Response α)
    (method path : GoString) : Option (Except GoString α) :=
  match path with
  | [] => none
  | c :: _ =>
    let path := if c ≠ '/' then "/".toList ++ path else path
    let url := baseURL ++ path
    match send url with
    | .newRequestError err => some (.error err)
    | .doError err => some (.error err)
    | .reply status readAll decode =>
      if status < 200 ∨ status > 299 then
        match readAll with
        | .error _ =>
          some (.error (method ++ " ".toList ++ path ++ " unknown error occured".toList))
        | .ok b =>
          some (.error (method ++ " ".toList ++ path ++ " error: ".toList ++ quote b))
      else
        match decode with
        | .error err =>
          some (.error
            (method ++ " ".toList ++ path ++ " response parsing error: ".toList ++ err))
        | .ok v => some (.ok v)

/-- The method `GetDNSDomains`. -/
def GetDNSDomains (r : Remote) : Option (Except GoString (List DNSDomain)) :=
  request r.quote r.getDomains "GET".toList "domains/".toList

/-- The method `GetAllRRSets`. -/
def GetAllRRSets (r : Remote) (domainName : GoString) : Option (Except GoString RRSets) :=
  request r.quote r.getRRSets "GET".toList
    ("domains/".toList ++ domainName ++ "/rrsets/".toList)

/-- The method `BulkUpdateRRSet`; the result is the returned error (`none` inside for
`nil`). -/
def BulkUpdateRRSet (r : Remote) (domainName : GoString) (rrsets : RRSets) :
    Option (Option GoString) :=
  match r.marshal rrsets with
  | .error err => some (some err)
  | .ok rawJSON =>
    match request r.quote (fun url => r.putRRSets url rawJSON) "PUT".toList
        ("domains/".toList ++ domainName ++ "/rrsets/".toList) with
    | none => none
    | some (.error err) => some (some err)
    | some (.ok _) => some none

/-! ## The provider (`desec.go`) -/

/-- The method `Domains`; `domainFilter` is `p.domainFilter.Match`. -/
def Domains (r : Remote) (domainFilter : GoString → Bool) :
    Option (Except GoString (List DNSDomain)) :=
  match GetDNSDomains r with
  | none => none
  | some (.error err) => some (.error err)
  | some (.ok domains) =>
    some (.ok (domains.foldl
      (fun result domain => if domainFilter domain.Name then result ++ [domain] else result)
      []))

/-- Modelled from the spec: `endpoint.NewEndpointWithTTL`, which is not among the source
files; the endpoint carries the name, type, TTL and record values it is given, verbatim. -/
def NewEndpointWithTTL (dnsName recordType : GoString) (ttl : Int)
    (targets : List GoString) : Endpoint :=
  { DNSName := dnsName, Targets := targets, RecordType := recordType, RecordTTL := ttl }

/-- The loop over the RRSets of one zone in `Records`; `supported` is
`provider.SupportedRecordType`. -/
def appendEndpoints (supported : GoString → Bool) (endpoints : List Endpoint)
    (rrsets : RRSets) : List Endpoint :=
  rrsets.foldl
    (fun eps rrset =>
      if !supported rrset.Type_ then eps
      else eps ++ [NewEndpointWithTTL rrset.Name rrset.Type_ rrset.TTL
                    (rrset.Records.getD [])])
    endpoints

/-- The loop over the zones in `Records`: the pair is the returned endpoint slice and the
returned error. -/
def recordsLoop (r : Remote) (supported : GoString → Bool) (endpoints : List Endpoint) :
    List DNSDomain → Option (List Endpoint × Option GoString)
  | [] => some (endpoints, none)
  | domain :: rest =>
    match GetAllRRSets r domain.Name with
    | none => none
    | some (.error err) => some ([], some err)
    | some (.ok rrsets) =>
      recordsLoop r supported (appendEndpoints supported endpoints rrsets) rest

/-- The method `Records`: the returned endpoint slice and the returned error. -/
def Records (r : Remote) (domainFilter supported : GoString → Bool) :
    Option (List Endpoint × Option GoString) :=
  match Domains r domainFilter with
  | none => none
  | some (.error err) => some ([], some err)
  | some (.ok domains) => recordsLoop r supported [] domains

/-- The loop `for _, change := range changes.Delete` of `ApplyChanges`: the targets of the
change are cleared, then `addToBulk` is called with that one change. -/
def deleteLoop (isConfigured : Int → Bool) (iter : Nat → List GoString) (bulk : Bulk) :
    List Endpoint → Option Bulk
  | [] => some bulk
  | change :: rest =>
    match addToBulk isConfigured iter bulk [{ change with Targets := [] }] with
    | none => none
    | some bulk1 => deleteLoop isConfigured (fun n => iter (n + 1)) bulk1 rest

/-- The bucket construction of `ApplyChanges`: the fresh map, then the creates, the
updates and the deletes.  Every change runs one `range` statement over the map, so the
updates start at `iter` index `len(Create)` and the deletes after the updates. -/
def buildBulk (isConfigured : Int → Bool) (iter : Nat → List GoString)
    (domains : List DNSDomain) (changes : Changes) : Option Bulk :=
  match addToBulk isConfigured iter (initBulk domains) changes.Create with
  | none => none
  | some bulk1 =>
    match addToBulk isConfigured (fun n => iter (n + changes.Create.length)) bulk1
        changes.UpdateNew with
    | none => none
    | some bulk2 =>
      deleteLoop isConfigured
        (fun n => iter (n + (changes.Create.length + changes.UpdateNew.length))) bulk2
        changes.Delete

/-- How a call ends: it returns an error value (`none` for `nil`) or it panics. -/
inductive Outcome where
  | returned (err : Option GoString)
  | panicked
deriving DecidableEq, Repr

/-- What a run of `ApplyChanges` does: the calls of `BulkUpdateRRSet` it makes, in order,
each with its zone name and RRSets, and how it ends. -/
structure Run where
  calls : List (GoString × RRSets)
  outcome : Outcome
deriving DecidableEq, Repr

/-- The loop `for domain, rrsets := range bulk` of `ApplyChanges`, the keys being visited
in the order given. -/
def writeLoop (r : Remote) (bulk : Bulk) : List GoString → Run
  | [] => ⟨[], .returned none⟩
  | domain :: rest =>
    if (bulk.get domain).length = 0 then writeLoop r bulk rest
    else
      match BulkUpdateRRSet r domain (bulk.get domain) with
      | none => ⟨[(domain, bulk.get domain)], .panicked⟩
      | some (some err) => ⟨[(domain, bulk.get domain)], .returned (some err)⟩
      | some none =>
        ⟨(domain, bulk.get domain) :: (writeLoop r bulk rest).calls,
         (writeLoop r bulk rest).outcome⟩

/-- The number of `range` statements over the map that the bucket construction runs. -/
def Changes.size (changes : Changes) : Nat :=
  changes.Create.length + changes.UpdateNew.length + changes.Delete.length

/-- The method `ApplyChanges`. -/
def ApplyChanges (isConfigured : Int → Bool) (r : Remote) (iter : Nat → List GoString)
    (changes : Changes) : Run :=
  match GetDNSDomains r with
  | none => ⟨[], .panicked⟩
  | some (.error err) => ⟨[], .returned (some err)⟩
  | some (.ok domains) =>
    match buildBulk isConfigured iter domains changes with
    | none => ⟨[], .panicked⟩
    | some bulk => writeLoop r bulk (iter changes.size)

/-- The key order `order` is one in which a `range` statement can visit a map whose keys
are `keys`: every key once. -/
def IsKeyOrder (keys order : List GoString) : Prop :=
  order.Perm keys.dedup

/-! ## Vocabulary of the statements -/

/-- The zone under which the inner loop of `addToBulk` files a change when the keys are
visited in the order `order`: the first key that the DNS name ends with. -/
def zoneOf (order : List GoString) (change : Endpoint) : Option GoString :=
  order.find? (fun d => HasSuffix change.DNSName d)

/-- The changes of a batch that are filed under zone `z`, in the order of the batch. -/
def routed (z : GoString) (iter : Nat → List GoString) : List Endpoint → List Endpoint
  | [] => []
  | c :: rest =>
    if zoneOf (iter 0) c = some z then c :: routed z (fun n => iter (n + 1)) rest
    else routed z (fun n => iter (n + 1)) rest

/-- A delete change as `ApplyChanges` hands it to `addToBulk`: its targets cleared. -/
def cleared (change : Endpoint) : Endpoint := { change with Targets := [] }

/-! ## Concrete inputs -/

/-- A zone as `GetDNSDomains` lists it, with the given name. -/
def zone (name : String) : DNSDomain :=
  { Created := [], Published := [], Name := name.toList, MinimumTTL := 3600, Touched := [] }

/-- An endpoint with the given name, type, TTL and targets. -/
def ep (name type : String) (ttl : Int) (targets : List String) : Endpoint :=
  { DNSName := name.toList, Targets := targets.map String.toList,
    RecordType := type.toList, RecordTTL := ttl }

/-- An instance of `endpoint.TTL.IsConfigured` for the concrete runs, which all use TTLs
that are either unset (`0`) or positive. -/
def ttlIsConfigured (ttl : Int) : Bool := decide (0 < ttl)

/-- The map of the nested zones `b.example.com` and `example.com`, both buckets empty. -/
def nestedBulk : Bulk := initBulk [zone "b.example.com", zone "example.com"]

/-- A change for `x.b.example.com`, which lies in both nested zones. -/
def nestedChange : Endpoint := ep "x.b.example.com" "A" 300 ["1.2.3.4"]

/-- A batch for the zone `example.com`: one change with a TTL, one without, and one whose
name is outside the zone. -/
def sampleBatch : List Endpoint :=
  [ep "www.example.com" "A" 300 ["1.2.3.4"], ep "txt.example.com" "TXT" 0 ["v=1"],
   ep "www.example.org" "A" 300 ["5.6.7.8"]]

/-- A change set for the zone `example.com`: one create, one update without a TTL, one
delete that still carries a target, and one create outside every listed zone. -/
def sampleChanges : Changes :=
  { Create := [ep "www.example.com" "A" 300 ["1.2.3.4"],
               ep "www.example.net" "A" 300 ["5.6.7.8"]],
    UpdateNew := [ep "txt.example.com" "TXT" 0 ["v=1"]],
    Delete := [ep "old.example.com" "TXT" 300 ["gone"]] }

/-- A change set whose names lie outside the zones `example.com` and `example.org`. -/
def foreignChanges : Changes :=
  { Create := [ep "www.example.io" "A" 300 ["5.6.7.8"]],
    UpdateNew := [],
    Delete := [ep "old.example.net" "TXT" 300 ["gone"]] }

/-- An RRSet as the remote side lists it. -/
def listed (sub name type : String) (ttl : Int) (records : List String) : RRSet :=
  { Domain := "example.com".toList, SubName := sub.toList, Name := name.toList,
    Type_ := type.toList, Records := some (records.map String.toList), TTL := ttl,
    Created := [], Touched := [] }

/-- A remote side that lists the zones `example.com` and `example.org`, holds three
RRSets in the first and one in the second, and accepts every write. -/
def okRemote : Remote :=
  { quote := fun b => Char.ofNat 34 :: b ++ [Char.ofNat 34],
    marshal := fun _ => .ok "[]".toList,
    getDomains := fun _ => .reply 200 (.ok []) (.ok [zone "example.com", zone "example.org"]),
    getRRSets := fun url =>
      if url = baseURL ++ "/domains/example.com/rrsets/".toList then
        .reply 200 (.ok [])
          (.ok [listed "www" "www.example.com" "A" 300 ["1.2.3.4"],
                listed "" "example.com" "RRSIG" 3600 ["sig"],
                listed "txt" "txt.example.com" "TXT" 3600 ["v=1"]])
      else .reply 200 (.ok []) (.ok [listed "" "example.org" "A" 60 ["5.6.7.8"]]),
    putRRSets := fun _ _ => .reply 200 (.ok []) (.ok []) }

/-- A remote side as `okRemote`, except that every write is answered with the status 500
and reading the body of that response fails. -/
def unreadableRemote : Remote :=
  { okRemote with
    putRRSets := fun _ _ =>
      .reply 500 (.error "connection reset by peer".toList)
        (.error "unexpected end of JSON input".toList) }

/-- A remote side as `okRemote`, except that every write is answered with the status 400
and the body `bad record`. -/
def rejectingRemote : Remote :=
  { okRemote with
    putRRSets := fun _ _ =>
      .reply 400 (.ok "bad record".toList) (.error "invalid character".toList) }

/-- A remote side as `okRemote`, except that listing the RRSets of `example.org` is
answered with the status 404. -/
def missingZoneRemote : Remote :=
  { okRemote with
    getRRSets := fun url =>
      if url = baseURL ++ "/domains/example.org/rrsets/".toList then
        .reply 404 (.ok "not found".toList) (.error "invalid character".toList)
      else okRemote.getRRSets url }

/-- The record types taken as supported in the concrete runs. -/
def sampleSupported (t : GoString) : Bool :=
  t = "A".toList || t = "CNAME".toList || t = "TXT".toList

/-- The RRSet listings that `okRemote` holds, by zone name. -/
def sampleListing (name : GoString) : RRSets :=
  if name = "example.com".toList then
    [listed "www" "www.example.com" "A" 300 ["1.2.3.4"],
     listed "" "example.com" "RRSIG" 3600 ["sig"],
     listed "txt" "txt.example.com" "TXT" 3600 ["v=1"]]
  else [listed "" "example.org" "A" 60 ["5.6.7.8"]]

/-- A change set whose only change is a delete of the apex record of `example.com`. -/
def apexDelete : Changes :=
  { Create := [], UpdateNew := [],
    Delete := [ep "example.com" "TXT" 300 ["gone"]] }

/-- A change set that creates `www.example.com` and then the apex record of
`example.com`. -/
def apexCreate : Changes :=
  { Create := [ep "www.example.com" "A" 300 ["1.2.3.4"],
               ep "example.com" "A" 300 ["1.2.3.4"]],
    UpdateNew := [], Delete := [] }

/-- The key order used in the concrete runs of `ApplyChanges` and `Records`. -/
def sampleOrder : List GoString := ["example.org".toList, "example.com".toList]

/-! ## Lemmas on the loops -/

theorem foldl_goAppend (ts : List GoString) (acc : List GoString) :
    ts.foldl goAppend (some acc) = some (acc ++ ts) := by
  induction ts generalizing acc with
  | nil => simp
  | cons t ts ih => simp [List.foldl, goAppend, ih]

theorem newRRSet_eq_some {ic : Int → Bool} {c : Endpoint} {d : GoString} {r : RRSet}
    (h : newRRSet ic c d = some r) :
    ∃ sub, sliceTo c.DNSName (Index c.DNSName d - 1) = some sub ∧
      r = { Domain := d, SubName := sub, Name := c.DNSName, Type_ := c.RecordType,
            Records := some c.Targets,
            TTL := if ic c.RecordTTL then c.RecordTTL else defaultDesecRecordTTL,
            Created := [], Touched := [] } := by
  have hrec := foldl_goAppend c.Targets []
  simp only [List.nil_append] at hrec
  simp only [newRRSet, hrec] at h
  cases hsub : sliceTo c.DNSName (Index c.DNSName d - 1) with
  | none => rw [hsub] at h; exact absurd h (by simp)
  | some sub =>
    rw [hsub] at h
    exact ⟨sub, rfl, (Option.some.inj h).symm⟩

theorem addChange_eq (ic : Int → Bool) (order : List GoString) (bulk : Bulk)
    (c : Endpoint) :
    addChange ic order bulk c =
      match zoneOf order c with
      | none => some bulk
      | some d => (newRRSet ic c d).map (fun r => bulk.set d (bulk.get d ++ [r])) := by
  induction order with
  | nil => simp [addChange, zoneOf]
  | cons d rest ih =>
    by_cases hd : HasSuffix c.DNSName d = true
    · simp only [addChange, zoneOf, hd, List.find?, if_true]
      cases newRRSet ic c d <;> rfl
    · have hd2 : HasSuffix c.DNSName d = false := by simpa using hd
      simp only [addChange, zoneOf, hd2, List.find?, Bool.false_eq_true, if_false]
      simpa [zoneOf] using ih

theorem foldl_set_apply (ds : List DNSDomain) :
    ∀ (bulk : Bulk) (k : GoString),
      ds.foldl (fun bulk d => bulk.set d.Name []) bulk k =
        if k ∈ ds.map DNSDomain.Name then some [] else bulk k := by
  induction ds with
  | nil => intro bulk k; simp
  | cons d ds ih =>
    intro bulk k
    simp only [List.foldl, ih, List.map_cons, List.mem_cons]
    by_cases h1 : k ∈ ds.map DNSDomain.Name
    · simp [h1]
    · by_cases h2 : k = d.Name
      · simp [h1, h2, Bulk.set]
      · simp [h1, h2, Bulk.set]

/-- The fresh map of `ApplyChanges` has an empty bucket for every listed zone name and
nothing else. -/
theorem initBulk_apply (domains : List DNSDomain) (k : GoString) :
    initBulk domains k = if k ∈ domains.map DNSDomain.Name then some [] else none := by
  unfold initBulk
  rw [foldl_set_apply]

theorem Bulk.get_set (bulk : Bulk) (d z : GoString) (rs : RRSets) :
    (bulk.set d rs).get z = if z = d then rs else bulk.get z := by
  unfold Bulk.get Bulk.set
  split <;> simp

theorem addChange_get {ic : Int → Bool} {order : List GoString} {bulk bulk1 : Bulk}
    {c : Endpoint} (h : addChange ic order bulk c = some bulk1) (z : GoString) :
    (zoneOf order c = some z ∧ ∃ r, newRRSet ic c z = some r ∧
        bulk1.get z = bulk.get z ++ [r]) ∨
    (zoneOf order c ≠ some z ∧ bulk1.get z = bulk.get z) := by
  rw [addChange_eq] at h
  cases hz : zoneOf order c with
  | none =>
    rw [hz] at h
    simp only [Option.some.injEq] at h
    right; subst h; simp
  | some d =>
    rw [hz] at h
    simp only [Option.map_eq_some'] at h
    obtain ⟨r, hr, hb⟩ := h
    subst hb
    by_cases hzd : z = d
    · subst hzd
      left
      exact ⟨rfl, r, hr, by simp [Bulk.get_set]⟩
    · right
      refine ⟨?_, by simp [Bulk.get_set, hzd]⟩
      intro h'
      exact hzd (Option.some.inj h').symm

theorem addToBulk_get {ic : Int → Bool} (cs : List Endpoint) :
    ∀ {iter : Nat → List GoString} {bulk bulk1 : Bulk},
      addToBulk ic iter bulk cs = some bulk1 → ∀ z, ∃ rs,
        bulk1.get z = bulk.get z ++ rs ∧
        List.Forall₂ (fun c r => newRRSet ic c z = some r) (routed z iter cs) rs := by
  induction cs with
  | nil =>
    intro iter bulk bulk1 h z
    simp only [addToBulk, Option.some.injEq] at h
    subst h
    exact ⟨[], by simp, by simp [routed]⟩
  | cons c rest ih =>
    intro iter bulk bulk1 h z
    simp only [addToBulk] at h
    cases h0 : addChange ic (iter 0) bulk c with
    | none => rw [h0] at h; exact absurd h (by simp)
    | some b0 =>
      rw [h0] at h
      obtain ⟨rs, hrs, hf⟩ := ih h z
      rcases addChange_get h0 z with ⟨hz, r, hr, hg⟩ | ⟨hz, hg⟩
      · refine ⟨r :: rs, by simp [hrs, hg], ?_⟩
        simp only [routed, hz, if_true]
        exact List.Forall₂.cons hr hf
      · refine ⟨rs, by simp [hrs, hg], ?_⟩
        simp only [routed, hz, if_false]
        exact hf

/-! ## Lemmas on `strings.Index` and the slice expression -/

theorem indexFrom_range (sub : GoString) (s : GoString) :
    ∀ i : Nat, indexFrom sub i s = -1 ∨
      ((i : Int) ≤ indexFrom sub i s ∧ indexFrom sub i s ≤ (i : Int) + s.length) := by
  induction s with
  | nil =>
    intro i
    simp only [indexFrom]
    split <;> simp
  | cons c t ih =>
    intro i
    simp only [indexFrom]
    split
    · right
      simp only [List.length_cons]
      push_cast
      constructor <;> omega
    · rcases ih (i + 1) with h | ⟨h1, h2⟩
      · left; exact h
      · right
        simp only [List.length_cons]
        push_cast at h1 h2 ⊢
        constructor <;> omega

theorem indexFrom_of_suffix (sub : GoString) (pre : GoString) :
    ∀ i : Nat, indexFrom sub i (pre ++ sub) ≠ -1 := by
  induction pre with
  | nil =>
    intro i
    cases sub with
    | nil => simp [indexFrom]
    | cons c t =>
      have : (c :: t).isPrefixOf (c :: t) = true := by
        rw [List.isPrefixOf_iff_prefix]
      simp only [List.nil_append, indexFrom, this, if_true]
      omega
  | cons p pre ih =>
    intro i
    simp only [List.cons_append, indexFrom]
    split
    · omega
    · exact ih (i + 1)

theorem HasSuffix_iff (s d : GoString) : HasSuffix s d = true ↔ ∃ pre, s = pre ++ d := by
  unfold HasSuffix
  simp only [Bool.and_eq_true, decide_eq_true_eq, beq_iff_eq]
  constructor
  · rintro ⟨_, h⟩
    refine ⟨s.take (s.length - d.length), ?_⟩
    conv_lhs => rw [← List.take_append_drop (s.length - d.length) s]
    rw [h]
  · rintro ⟨pre, rfl⟩
    simp

theorem Index_nonneg_of_HasSuffix {s d : GoString} (h : HasSuffix s d = true) :
    0 ≤ Index s d ∧ Index s d ≤ s.length := by
  obtain ⟨pre, rfl⟩ := (HasSuffix_iff s d).1 h
  have h1 := indexFrom_of_suffix d pre 0
  rcases indexFrom_range d (pre ++ d) 0 with h2 | ⟨h2, h3⟩
  · exact absurd h2 h1
  · unfold Index
    push_cast at h2 h3 ⊢
    constructor <;> omega

/-- Once `domain` matches, the RRSet is built unless the slice bound
`strings.Index(change.DNSName, domain)-1` is negative, that is unless the index is zero. -/
theorem newRRSet_isSome_iff (ic : Int → Bool) {c : Endpoint} {d : GoString}
    (h : HasSuffix c.DNSName d = true) :
    (newRRSet ic c d = none ↔ Index c.DNSName d = 0) ∧
    (0 < Index c.DNSName d → ∃ r, newRRSet ic c d = some r) := by
  obtain ⟨h0, h1⟩ := Index_nonneg_of_HasSuffix h
  constructor
  · constructor
    · intro hn
      by_contra hne
      have hs : sliceTo c.DNSName (Index c.DNSName d - 1) =
          some (c.DNSName.take (Index c.DNSName d - 1).toNat) := by
        unfold sliceTo
        rw [if_pos]
        constructor <;> omega
      simp [newRRSet, hs] at hn
    · intro hz
      have hs : sliceTo c.DNSName (Index c.DNSName d - 1) = none := by
        unfold sliceTo
        rw [if_neg]
        rw [hz]
        omega
      simp [newRRSet, hs]
  · intro hpos
    have hs : sliceTo c.DNSName (Index c.DNSName d - 1) =
        some (c.DNSName.take (Index c.DNSName d - 1).toNat) := by
      unfold sliceTo
      rw [if_pos]
      constructor <;> omega
    simp [newRRSet, hs]

theorem zoneOf_append {c : Endpoint} {pre post : List GoString} {d : GoString}
    (hpre : ∀ z ∈ pre, HasSuffix c.DNSName z = false) (hd : HasSuffix c.DNSName d = true) :
    zoneOf (pre ++ d :: post) c = some d := by
  induction pre with
  | nil => simp [zoneOf, List.find?, hd]
  | cons p pre ih =>
    have hp : HasSuffix c.DNSName p = false := hpre p (by simp)
    have := ih (fun z hz => hpre z (by simp [hz]))
    simpa [zoneOf, List.find?, hp] using this

theorem addToBulk_single (ic : Int → Bool) (iter : Nat → List GoString) (bulk : Bulk)
    (c : Endpoint) : addToBulk ic iter bulk [c] = addChange ic (iter 0) bulk c := by
  simp only [addToBulk]
  cases addChange ic (iter 0) bulk c <;> rfl

/-! ## Sub-name extraction -/

/-- C1 (evaluation at the failing input): with the single zone `example.com`, the change
for `api.example.com.proxy.example.com` is filed with SubName `api`, although the name
minus `.example.com` is `api.example.com.proxy`; and the change for `myexample.com`,
whose name ends with the zone name without a separating dot, is filed with SubName `m`. -/
theorem addToBulk_subname_first_occurrence :
    ((addToBulk ttlIsConfigured (fun _ => ["example.com".toList])
        (initBulk [zone "example.com"])
        [ep "api.example.com.proxy.example.com" "A" 300 ["1.2.3.4"]]).map
      (fun bulk => bulk "example.com".toList) =
      some (some [{ Domain := "example.com".toList, SubName := "api".toList,
                    Name := "api.example.com.proxy.example.com".toList,
                    Type_ := "A".toList, Records := some ["1.2.3.4".toList], TTL := 300,
                    Created := [], Touched := [] }])) ∧
    "api".toList ++ ".".toList ++ "example.com".toList ≠
      "api.example.com.proxy.example.com".toList ∧
    ((addToBulk ttlIsConfigured (fun _ => ["example.com".toList])
        (initBulk [zone "example.com"])
        [ep "myexample.com" "A" 300 ["1.2.3.4"]]).map
      (fun bulk => bulk "example.com".toList) =
      some (some [{ Domain := "example.com".toList, SubName := "m".toList,
                    Name := "myexample.com".toList,
                    Type_ := "A".toList, Records := some ["1.2.3.4".toList], TTL := 300,
                    Created := [], Touched := [] }])) ∧
    "m".toList ++ ".".toList ++ "example.com".toList ≠ "myexample.com".toList := by
  refine ⟨?_, ?_, ?_, ?_⟩ <;> decide

/-- C2 (evaluation at the failing input): with the zone `example.com` in the map, the
apex change whose DNSName is `example.com` makes `addToBulk` panic: the index of the zone
name in the DNS name is `0`, so the slice bound is `-1`. -/
theorem addToBulk_apex_panics :
    Index "example.com".toList "example.com".toList - 1 = -1 ∧
    addToBulk ttlIsConfigured (fun _ => ["example.com".toList])
        (initBulk [zone "example.com"]) [ep "example.com" "A" 300 ["1.2.3.4"]] = none :=
  ⟨by decide, Option.isNone_iff_eq_none.1 (by decide)⟩

/-! ## Zone resolution -/

theorem addToBulk_append (ic : Int → Bool) (xs ys : List Endpoint) :
    ∀ (iter : Nat → List GoString) (bulk : Bulk),
      addToBulk ic iter bulk (xs ++ ys) =
        (addToBulk ic iter bulk xs).bind
          (fun b => addToBulk ic (fun n => iter (n + xs.length)) b ys) := by
  induction xs with
  | nil => intro iter bulk; simp [addToBulk]
  | cons x xs ih =>
    intro iter bulk
    simp only [List.cons_append, addToBulk]
    cases addChange ic (iter 0) bulk x with
    | none => simp
    | some b0 => exact ih (fun n => iter (n + 1)) b0

/-- C3 (counterexample): with the zones `b.example.com` and `example.com`, when the map is
iterated with `example.com` first, the change for `x.b.example.com` is appended to the
bucket of `example.com` and the bucket of `b.example.com` stays empty. -/
theorem addToBulk_nested_zone_not_longest :
    IsKeyOrder ["b.example.com".toList, "example.com".toList]
      ["example.com".toList, "b.example.com".toList] ∧
    (addToBulk ttlIsConfigured (fun _ => ["example.com".toList, "b.example.com".toList])
        (initBulk [zone "b.example.com", zone "example.com"])
        [ep "x.b.example.com" "A" 300 ["1.2.3.4"]]).map
      (fun bulk => (bulk "example.com".toList, bulk "b.example.com".toList)) =
      some (some [{ Domain := "example.com".toList, SubName := "x.b".toList,
                    Name := "x.b.example.com".toList, Type_ := "A".toList,
                    Records := some ["1.2.3.4".toList], TTL := 300,
                    Created := [], Touched := [] }],
            some []) := by
  constructor
  · show List.Perm _ _
    decide
  · decide

/-- C3 (amended): `addToBulk` files a change under the first key, in the order in which
the map is iterated for that change, whose name the DNSName ends with, and under no
other: that bucket gains the RRSet built for that zone and every other entry of the map
is unchanged; the only other outcome is the panic of the slice expression, which happens
exactly when the index of that zone name in the DNSName is `0`. -/
theorem addToBulk_files_under_first_matching_key (ic : Int → Bool)
    (iter : Nat → List GoString) (bulk : Bulk) (c : Endpoint)
    (pre post : List GoString) (d : GoString)
    (horder : iter 0 = pre ++ d :: post)
    (hpre : ∀ z ∈ pre, HasSuffix c.DNSName z = false)
    (hd : HasSuffix c.DNSName d = true) :
    (Index c.DNSName d = 0 ∧ addToBulk ic iter bulk [c] = none) ∨
    (0 < Index c.DNSName d ∧ ∃ r bulk1, newRRSet ic c d = some r ∧ r.Domain = d ∧
      addToBulk ic iter bulk [c] = some bulk1 ∧
      bulk1 d = some (bulk.get d ++ [r]) ∧ ∀ k, k ≠ d → bulk1 k = bulk k) := by
  have hz : zoneOf (iter 0) c = some d := by rw [horder]; exact zoneOf_append hpre hd
  have hrun : addToBulk ic iter bulk [c] =
      (newRRSet ic c d).map (fun r => bulk.set d (bulk.get d ++ [r])) := by
    rw [addToBulk_single, addChange_eq, hz]
  obtain ⟨hnone, hsome⟩ := newRRSet_isSome_iff ic hd
  obtain ⟨h0, _⟩ := Index_nonneg_of_HasSuffix hd
  by_cases hi : Index c.DNSName d = 0
  · left
    exact ⟨hi, by rw [hrun, hnone.2 hi]; rfl⟩
  · right
    have hpos : 0 < Index c.DNSName d := by omega
    obtain ⟨r, hr⟩ := hsome hpos
    obtain ⟨sub, _, hreq⟩ := newRRSet_eq_some hr
    refine ⟨hpos, r, bulk.set d (bulk.get d ++ [r]), hr, by rw [hreq], ?_, ?_, ?_⟩
    · rw [hrun, hr]; rfl
    · simp [Bulk.set]
    · intro k hk
      simp [Bulk.set, hk]

/-- Witness of C3 (amended): with `b.example.com` visited first, the change for
`x.b.example.com` meets the hypotheses, `b.example.com` being the first match. -/
theorem addToBulk_files_under_first_matching_key_witness :
    (∀ z ∈ ([] : List GoString), HasSuffix nestedChange.DNSName z = false) ∧
    HasSuffix nestedChange.DNSName "b.example.com".toList = true ∧
    ((Index nestedChange.DNSName "b.example.com".toList = 0 ∧
        addToBulk ttlIsConfigured
          (fun _ => ["b.example.com".toList, "example.com".toList]) nestedBulk
          [nestedChange] = none) ∨
      (0 < Index nestedChange.DNSName "b.example.com".toList ∧
        ∃ r bulk1, newRRSet ttlIsConfigured nestedChange "b.example.com".toList = some r ∧
          r.Domain = "b.example.com".toList ∧
          addToBulk ttlIsConfigured
            (fun _ => ["b.example.com".toList, "example.com".toList]) nestedBulk
            [nestedChange] = some bulk1 ∧
          bulk1 "b.example.com".toList =
            some (nestedBulk.get "b.example.com".toList ++ [r]) ∧
          ∀ k, k ≠ "b.example.com".toList → bulk1 k = nestedBulk k)) :=
  ⟨by simp, by decide,
   addToBulk_files_under_first_matching_key ttlIsConfigured
     (fun _ => ["b.example.com".toList, "example.com".toList]) nestedBulk nestedChange
     [] ["example.com".toList] "b.example.com".toList rfl (by simp) (by decide)⟩

/-! ## TTL resolution -/

/-- C4: when `addToBulk` completes on a batch, every bucket is extended by one RRSet per
change filed under its zone, and the TTL of each such RRSet is `3600` when the RecordTTL
of its change is not configured and the RecordTTL itself when it is configured. -/
theorem addToBulk_ttl (ic : Int → Bool) (iter : Nat → List GoString) (bulk bulk1 : Bulk)
    (cs : List Endpoint) (h : addToBulk ic iter bulk cs = some bulk1) (z : GoString) :
    ∃ rs, bulk1.get z = bulk.get z ++ rs ∧
      List.Forall₂
        (fun c r => (ic c.RecordTTL = false → r.TTL = 3600) ∧
                    (ic c.RecordTTL = true → r.TTL = c.RecordTTL))
        (routed z iter cs) rs := by
  obtain ⟨rs, hrs, hf⟩ := addToBulk_get cs h z
  refine ⟨rs, hrs, hf.imp ?_⟩
  intro c r hr
  obtain ⟨sub, _, hreq⟩ := newRRSet_eq_some hr
  subst hreq
  constructor
  · intro hc; simp [hc, defaultDesecRecordTTL]
  · intro hc; simp [hc]

/-- Witness of C4: the sample batch completes on the map of the zone `example.com`. -/
theorem addToBulk_ttl_witness :
    ∃ bulk1, addToBulk ttlIsConfigured (fun _ => ["example.com".toList])
        (initBulk [zone "example.com"]) sampleBatch = some bulk1 ∧
      ∃ rs, bulk1.get "example.com".toList =
          (initBulk [zone "example.com"]).get "example.com".toList ++ rs ∧
        List.Forall₂
          (fun c r => (ttlIsConfigured c.RecordTTL = false → r.TTL = 3600) ∧
                      (ttlIsConfigured c.RecordTTL = true → r.TTL = c.RecordTTL))
          (routed "example.com".toList (fun _ => ["example.com".toList]) sampleBatch)
          rs := by
  have hsome : (addToBulk ttlIsConfigured (fun _ => ["example.com".toList])
      (initBulk [zone "example.com"]) sampleBatch).isSome = true := by decide
  obtain ⟨bulk1, h⟩ := Option.isSome_iff_exists.1 hsome
  exact ⟨bulk1, h, addToBulk_ttl ttlIsConfigured (fun _ => ["example.com".toList])
    (initBulk [zone "example.com"]) bulk1 sampleBatch h "example.com".toList⟩

/-! ## Changes outside every zone -/

/-- C6: a change whose DNSName ends with the name of no key of the map is skipped.  If
the changes before it leave the map `b`, the loop for the change visits keys of `b`, and
the DNSName ends with no key of `b`, then the change leaves `b` as it is, and the whole
batch gives what the remaining changes give when they are processed from `b`. -/
theorem addToBulk_skips_unmatched (ic : Int → Bool) (iter : Nat → List GoString)
    (bulk b : Bulk) (pre post : List Endpoint) (c : Endpoint)
    (hpre : addToBulk ic iter bulk pre = some b)
    (horder : ∀ d ∈ iter pre.length, (b d).isSome = true)
    (hno : ∀ k, (b k).isSome = true → HasSuffix c.DNSName k = false) :
    addToBulk ic (fun n => iter (n + pre.length)) b [c] = some b ∧
    addToBulk ic iter bulk (pre ++ c :: post) =
      addToBulk ic (fun n => iter (n + (pre.length + 1))) b post := by
  have hz : zoneOf (iter pre.length) c = none := by
    unfold zoneOf
    rw [List.find?_eq_none]
    intro d hd
    simp [hno d (horder d hd)]
  have hskip : addChange ic (iter pre.length) b c = some b := by
    rw [addChange_eq, hz]
  constructor
  · rw [addToBulk_single]
    simpa using hskip
  · rw [addToBulk_append, hpre]
    simp only [Option.some_bind, addToBulk, Nat.zero_add, hskip]
    have hshift : (fun n => iter (n + 1 + pre.length)) =
        fun n => iter (n + (pre.length + 1)) := by
      funext n
      congr 1
      omega
    rw [hshift]

/-- Witness of C6: the change for `www.example.org`, placed before two changes of the
zone `example.com`, matches no key of the map of that zone. -/
theorem addToBulk_skips_unmatched_witness :
    addToBulk ttlIsConfigured (fun _ => ["example.com".toList])
        (initBulk [zone "example.com"]) [ep "www.example.org" "A" 300 ["5.6.7.8"]] =
      some (initBulk [zone "example.com"]) ∧
    addToBulk ttlIsConfigured (fun _ => ["example.com".toList])
        (initBulk [zone "example.com"])
        ([] ++ ep "www.example.org" "A" 300 ["5.6.7.8"] :: sampleBatch.take 2) =
      addToBulk ttlIsConfigured (fun _ => ["example.com".toList])
        (initBulk [zone "example.com"]) (sampleBatch.take 2) :=
  addToBulk_skips_unmatched ttlIsConfigured (fun _ => ["example.com".toList])
    (initBulk [zone "example.com"]) (initBulk [zone "example.com"]) []
    (sampleBatch.take 2) (ep "www.example.org" "A" 300 ["5.6.7.8"]) rfl
    (by
      intro d hd
      simp only [List.length_nil, List.mem_singleton] at hd
      subst hd
      decide)
    (by
      intro k hk
      rw [initBulk_apply] at hk
      simp [zone] at hk
      subst hk
      decide)

/-! ## The buckets built by `ApplyChanges` -/

theorem deleteLoop_get {ic : Int → Bool} (ds : List Endpoint) :
    ∀ {iter : Nat → List GoString} {bulk bulk1 : Bulk},
      deleteLoop ic iter bulk ds = some bulk1 → ∀ z, ∃ rs,
        bulk1.get z = bulk.get z ++ rs ∧
        List.Forall₂ (fun c r => newRRSet ic (cleared c) z = some r)
          (routed z iter ds) rs := by
  induction ds with
  | nil =>
    intro iter bulk bulk1 h z
    simp only [deleteLoop, Option.some.injEq] at h
    subst h
    exact ⟨[], by simp, by simp [routed]⟩
  | cons c rest ih =>
    intro iter bulk bulk1 h z
    simp only [deleteLoop, addToBulk_single] at h
    cases h0 : addChange ic (iter 0) bulk (cleared c) with
    | none =>
      have h0a : addChange ic (iter 0) bulk { c with Targets := [] } = none := h0
      rw [h0a] at h
      exact absurd h (by simp)
    | some b0 =>
      have h0a : addChange ic (iter 0) bulk { c with Targets := [] } = some b0 := h0
      rw [h0a] at h
      obtain ⟨rs, hrs, hf⟩ := ih h z
      have hzone : zoneOf (iter 0) (cleared c) = zoneOf (iter 0) c := rfl
      rcases addChange_get h0 z with ⟨hz, r, hr, hg⟩ | ⟨hz, hg⟩
      · rw [hzone] at hz
        refine ⟨r :: rs, by simp [hrs, hg], ?_⟩
        simp only [routed, hz, if_true]
        exact List.Forall₂.cons hr hf
      · rw [hzone] at hz
        refine ⟨rs, by simp [hrs, hg], ?_⟩
        simp only [routed, hz, if_false]
        exact hf

theorem initBulk_get (domains : List DNSDomain) (z : GoString) :
    (initBulk domains).get z = [] := by
  unfold Bulk.get
  rw [initBulk_apply]
  split <;> rfl

/-- The buckets that the bucket construction of `ApplyChanges` leaves: for every zone,
one RRSet per create filed under it, then one per update, then one per delete (built from
the change with its targets cleared), each group in the order of its input list. -/
theorem buildBulk_get {ic : Int → Bool} {iter : Nat → List GoString}
    {domains : List DNSDomain} {changes : Changes} {bulk : Bulk}
    (h : buildBulk ic iter domains changes = some bulk) (z : GoString) :
    ∃ rc ru rd, bulk.get z = rc ++ ru ++ rd ∧
      List.Forall₂ (fun c r => newRRSet ic c z = some r)
        (routed z iter changes.Create) rc ∧
      List.Forall₂ (fun c r => newRRSet ic c z = some r)
        (routed z (fun n => iter (n + changes.Create.length)) changes.UpdateNew) ru ∧
      List.Forall₂ (fun c r => newRRSet ic (cleared c) z = some r)
        (routed z
          (fun n => iter (n + (changes.Create.length + changes.UpdateNew.length)))
          changes.Delete) rd := by
  unfold buildBulk at h
  cases h1 : addToBulk ic iter (initBulk domains) changes.Create with
  | none => rw [h1] at h; exact absurd h (by simp)
  | some b1 =>
    rw [h1] at h
    simp only at h
    cases h2 : addToBulk ic (fun n => iter (n + changes.Create.length)) b1
        changes.UpdateNew with
    | none => rw [h2] at h; exact absurd h (by simp)
    | some b2 =>
      rw [h2] at h
      simp only at h
      obtain ⟨rc, hc, hfc⟩ := addToBulk_get _ h1 z
      obtain ⟨ru, hu, hfu⟩ := addToBulk_get _ h2 z
      obtain ⟨rd, hd, hfd⟩ := deleteLoop_get _ h z
      refine ⟨rc, ru, rd, ?_, hfc, hfu, hfd⟩
      rw [hd, hu, hc, initBulk_get]
      simp

theorem writeLoop_calls (r : Remote) (bulk : Bulk) (order : List GoString) :
    ∀ p ∈ (writeLoop r bulk order).calls,
      p.1 ∈ order ∧ p.2 = bulk.get p.1 ∧ p.2 ≠ [] := by
  induction order with
  | nil => intro p hp; simp [writeLoop] at hp
  | cons d rest ih =>
    intro p hp
    simp only [writeLoop] at hp
    by_cases hlen : (bulk.get d).length = 0
    · rw [if_pos hlen] at hp
      obtain ⟨h1, h2⟩ := ih p hp
      exact ⟨List.mem_cons_of_mem _ h1, h2⟩
    · rw [if_neg hlen] at hp
      have hne : bulk.get d ≠ [] := fun h => hlen (by rw [h]; rfl)
      cases hw : BulkUpdateRRSet r d (bulk.get d) with
      | none =>
        rw [hw] at hp
        simp only [List.mem_singleton] at hp
        subst hp
        exact ⟨by simp, rfl, hne⟩
      | some e =>
        cases e with
        | some err =>
          rw [hw] at hp
          simp only [List.mem_singleton] at hp
          subst hp
          exact ⟨by simp, rfl, hne⟩
        | none =>
          rw [hw] at hp
          simp only [List.mem_cons] at hp
          rcases hp with hp | hp
          · subst hp
            exact ⟨by simp, rfl, hne⟩
          · obtain ⟨h1, h2⟩ := ih p hp
            exact ⟨List.mem_cons_of_mem _ h1, h2⟩

theorem addChange_completes (ic : Int → Bool) (order : List GoString) (bulk : Bulk)
    (c : Endpoint)
    (hsafe : ∀ k ∈ order, HasSuffix c.DNSName k = true → 0 < Index c.DNSName k) :
    ∃ b, addChange ic order bulk c = some b := by
  rw [addChange_eq]
  cases hz : zoneOf order c with
  | none => exact ⟨bulk, rfl⟩
  | some d =>
    have hfound := List.find?_some hz
    have hmem : d ∈ order := List.mem_of_find?_eq_some hz
    obtain ⟨rr, hrr⟩ := (newRRSet_isSome_iff ic hfound).2 (hsafe d hmem hfound)
    exact ⟨bulk.set d (bulk.get d ++ [rr]), by simp [hrr]⟩

theorem addToBulk_completes (ic : Int → Bool) (cs : List Endpoint) :
    ∀ (iter : Nat → List GoString) (bulk : Bulk),
      (∀ n, ∀ k ∈ iter n, ∀ c ∈ cs, HasSuffix c.DNSName k = true →
        0 < Index c.DNSName k) →
      ∃ b, addToBulk ic iter bulk cs = some b := by
  induction cs with
  | nil => intro iter bulk _; exact ⟨bulk, rfl⟩
  | cons c rest ih =>
    intro iter bulk h
    obtain ⟨b0, hb0⟩ := addChange_completes ic (iter 0) bulk c
      (fun k hk => h 0 k hk c (by simp))
    simp only [addToBulk, hb0]
    exact ih _ b0 (fun n k hk x hx => h (n + 1) k hk x (List.mem_cons_of_mem _ hx))

theorem deleteLoop_completes (ic : Int → Bool) (cs : List Endpoint) :
    ∀ (iter : Nat → List GoString) (bulk : Bulk),
      (∀ n, ∀ k ∈ iter n, ∀ c ∈ cs, HasSuffix c.DNSName k = true →
        0 < Index c.DNSName k) →
      ∃ b, deleteLoop ic iter bulk cs = some b := by
  induction cs with
  | nil => intro iter bulk _; exact ⟨bulk, rfl⟩
  | cons c rest ih =>
    intro iter bulk h
    obtain ⟨b0, hb0⟩ := addChange_completes ic (iter 0) bulk { c with Targets := [] }
      (fun k hk => h 0 k hk c (by simp))
    simp only [deleteLoop, addToBulk_single, hb0]
    exact ih _ b0 (fun n k hk x hx => h (n + 1) k hk x (List.mem_cons_of_mem _ hx))

/-- The bucket construction of `ApplyChanges` completes whenever no zone name that a
DNSName ends with also stands at the start of that DNSName (the slice bound
`strings.Index(change.DNSName, domain)-1` is then never negative). -/
theorem buildBulk_completes (ic : Int → Bool) (iter : Nat → List GoString)
    (domains : List DNSDomain) (changes : Changes)
    (hsafe : ∀ n, ∀ k ∈ iter n,
      ∀ c ∈ changes.Create ++ changes.UpdateNew ++ changes.Delete,
        HasSuffix c.DNSName k = true → 0 < Index c.DNSName k) :
    ∃ bulk, buildBulk ic iter domains changes = some bulk := by
  obtain ⟨b1, h1⟩ := addToBulk_completes ic changes.Create iter (initBulk domains)
    (fun n k hk c hc => hsafe n k hk c (by simp [hc]))
  obtain ⟨b2, h2⟩ := addToBulk_completes ic changes.UpdateNew
    (fun n => iter (n + changes.Create.length)) b1
    (fun n k hk c hc => hsafe _ k hk c (by simp [hc]))
  obtain ⟨b3, h3⟩ := deleteLoop_completes ic changes.Delete
    (fun n => iter (n + (changes.Create.length + changes.UpdateNew.length))) b2
    (fun n k hk c hc => hsafe _ k hk c (by simp [hc]))
  exact ⟨b3, by simp only [buildBulk, h1, h2, h3]⟩

/-- C8: in every bucket built by `ApplyChanges` the RRSets are those of the creates filed
under the zone, then those of the updates, then those of the deletes, one RRSet per
change and each group in the order of its input list; and every bulk write that
`ApplyChanges` issues submits the bucket of its zone as built. -/
theorem ApplyChanges_bucket_order (ic : Int → Bool) (r : Remote)
    (iter : Nat → List GoString) (changes : Changes) (domains : List DNSDomain)
    (bulk : Bulk)
    (hdom : GetDNSDomains r = some (.ok domains))
    (hbulk : buildBulk ic iter domains changes = some bulk) :
    (∀ z, ∃ rc ru rd, bulk.get z = rc ++ ru ++ rd ∧
      List.Forall₂ (fun c r => newRRSet ic c z = some r)
        (routed z iter changes.Create) rc ∧
      List.Forall₂ (fun c r => newRRSet ic c z = some r)
        (routed z (fun n => iter (n + changes.Create.length)) changes.UpdateNew) ru ∧
      List.Forall₂ (fun c r => newRRSet ic (cleared c) z = some r)
        (routed z
          (fun n => iter (n + (changes.Create.length + changes.UpdateNew.length)))
          changes.Delete) rd) ∧
    ∀ p ∈ (ApplyChanges ic r iter changes).calls, p.2 = bulk.get p.1 := by
  refine ⟨fun z => buildBulk_get hbulk z, ?_⟩
  intro p hp
  simp only [ApplyChanges, hdom, hbulk] at hp
  exact (writeLoop_calls r bulk _ p hp).2.1

/-- Witness of C8: the sample change set against the zones listed by `okRemote`. -/
theorem ApplyChanges_bucket_order_witness :
    GetDNSDomains okRemote = some (.ok [zone "example.com", zone "example.org"]) ∧
    ∃ bulk, buildBulk ttlIsConfigured (fun _ => sampleOrder)
        [zone "example.com", zone "example.org"] sampleChanges = some bulk ∧
      (∀ z, ∃ rc ru rd, bulk.get z = rc ++ ru ++ rd ∧
        List.Forall₂ (fun c r => newRRSet ttlIsConfigured c z = some r)
          (routed z (fun _ => sampleOrder) sampleChanges.Create) rc ∧
        List.Forall₂ (fun c r => newRRSet ttlIsConfigured c z = some r)
          (routed z (fun _ => sampleOrder) sampleChanges.UpdateNew) ru ∧
        List.Forall₂ (fun c r => newRRSet ttlIsConfigured (cleared c) z = some r)
          (routed z (fun _ => sampleOrder) sampleChanges.Delete) rd) ∧
      ∀ p ∈ (ApplyChanges ttlIsConfigured okRemote (fun _ => sampleOrder)
          sampleChanges).calls, p.2 = bulk.get p.1 := by
  have hsome : (buildBulk ttlIsConfigured (fun _ => sampleOrder)
      [zone "example.com", zone "example.org"] sampleChanges).isSome = true := by decide
  obtain ⟨bulk, h⟩ := Option.isSome_iff_exists.1 hsome
  exact ⟨rfl, bulk, h, ApplyChanges_bucket_order ttlIsConfigured okRemote
    (fun _ => sampleOrder) sampleChanges _ bulk rfl h⟩

/-! ## Deletions -/

theorem zoneOf_isSome {order : List GoString} {c : Endpoint} {k : GoString}
    (hk : k ∈ order) (hs : HasSuffix c.DNSName k = true) :
    ∃ z, zoneOf order c = some z := by
  cases hz : zoneOf order c with
  | some z => exact ⟨z, rfl⟩
  | none =>
    unfold zoneOf at hz
    rw [List.find?_eq_none] at hz
    exact absurd hs (hz k hk)

theorem mem_routed {z : GoString} (cs : List Endpoint) :
    ∀ (iter : Nat → List GoString) (i : Nat) (c : Endpoint),
      cs[i]? = some c → zoneOf (iter i) c = some z → c ∈ routed z iter cs := by
  induction cs with
  | nil => intro iter i c h; simp at h
  | cons x xs ih =>
    intro iter i c h hz
    cases i with
    | zero =>
      simp only [List.getElem?_cons_zero, Option.some.injEq] at h
      subst h
      simp [routed, hz]
    | succ j =>
      simp only [List.getElem?_cons_succ] at h
      have := ih (fun n => iter (n + 1)) j c h hz
      simp only [routed]
      split
      · exact List.mem_cons_of_mem _ this
      · exact this

theorem forall₂_exists_of_mem {α β : Type} {R : α → β → Prop} {l1 : List α}
    {l2 : List β} (h : List.Forall₂ R l1 l2) {a : α} (ha : a ∈ l1) :
    ∃ b ∈ l2, R a b := by
  induction h with
  | nil => simp at ha
  | cons hab _ ih =>
    rcases List.mem_cons.1 ha with rfl | ha
    · exact ⟨_, by simp, hab⟩
    · obtain ⟨b, hb, hr⟩ := ih ha
      exact ⟨b, List.mem_cons_of_mem _ hb, hr⟩

/-- Deletions in the runs whose bucket construction completes: every RRSet built by
`addToBulk` has as Records the targets of its change, in the same order, and the
RecordType and DNSName of the change as Type and Name; and for every change of
`changes.Delete` whose DNSName ends with the name of a key visited by its loop, whatever
targets it carries, the bucket of the zone it is filed under holds an RRSet whose Records
is the empty non-nil list and whose Type and Name are those of the change. -/
theorem ApplyChanges_delete_records_empty (ic : Int → Bool) (iter : Nat → List GoString)
    (changes : Changes) (domains : List DNSDomain) (bulk : Bulk)
    (hbulk : buildBulk ic iter domains changes = some bulk) :
    (∀ c d rr, newRRSet ic c d = some rr →
      rr.Records = some c.Targets ∧ rr.Type_ = c.RecordType ∧ rr.Name = c.DNSName) ∧
    ∀ i c k, changes.Delete[i]? = some c →
      k ∈ iter (i + (changes.Create.length + changes.UpdateNew.length)) →
      HasSuffix c.DNSName k = true →
      ∃ z, zoneOf (iter (i + (changes.Create.length + changes.UpdateNew.length))) c =
          some z ∧
        ∃ rr ∈ bulk.get z, rr.Records = some [] ∧ rr.Type_ = c.RecordType ∧
          rr.Name = c.DNSName ∧ rr.Domain = z := by
  constructor
  · intro c d rr h
    obtain ⟨sub, _, hreq⟩ := newRRSet_eq_some h
    subst hreq
    exact ⟨rfl, rfl, rfl⟩
  · intro i c k hi hk hs
    obtain ⟨z, hz⟩ := zoneOf_isSome hk hs
    refine ⟨z, hz, ?_⟩
    obtain ⟨rc, ru, rd, hget, _, _, hfd⟩ := buildBulk_get hbulk z
    have hmem := mem_routed changes.Delete
      (fun n => iter (n + (changes.Create.length + changes.UpdateNew.length))) i c hi hz
    obtain ⟨rr, hrr, hnew⟩ := forall₂_exists_of_mem hfd hmem
    obtain ⟨sub, _, hreq⟩ := newRRSet_eq_some hnew
    refine ⟨rr, by rw [hget]; simp [hrr], ?_⟩
    subst hreq
    exact ⟨rfl, rfl, rfl, rfl⟩

/-- The delete of the sample change set, which carries the target `gone`, ends up in the
bucket of `example.com` with an empty Records list. -/
theorem ApplyChanges_delete_records_empty_witness :
    ∃ bulk, buildBulk ttlIsConfigured (fun _ => sampleOrder)
        [zone "example.com", zone "example.org"] sampleChanges = some bulk ∧
      ∃ z, zoneOf sampleOrder (ep "old.example.com" "TXT" 300 ["gone"]) = some z ∧
        ∃ rr ∈ bulk.get z, rr.Records = some [] ∧ rr.Type_ = "TXT".toList ∧
          rr.Name = "old.example.com".toList ∧ rr.Domain = z := by
  have hsome : (buildBulk ttlIsConfigured (fun _ => sampleOrder)
      [zone "example.com", zone "example.org"] sampleChanges).isSome = true := by decide
  obtain ⟨bulk, h⟩ := Option.isSome_iff_exists.1 hsome
  exact ⟨bulk, h, (ApplyChanges_delete_records_empty ttlIsConfigured
    (fun _ => sampleOrder) sampleChanges _ bulk h).2 0
    (ep "old.example.com" "TXT" 300 ["gone"]) "example.com".toList rfl
    (by decide) (by decide)⟩

/-- C5 (evaluation at the failing input): the zone `example.com` is listed and
`changes.Delete` holds the apex record `example.com`, which ends with that zone name; the
slice expression of `addToBulk` panics, so the bucket construction yields no map,
`ApplyChanges` panics, and no RRSet with empty Records is placed in the bucket of
`example.com`. -/
theorem ApplyChanges_apex_delete_panics :
    HasSuffix (ep "example.com" "TXT" 300 ["gone"]).DNSName "example.com".toList = true ∧
    (buildBulk ttlIsConfigured (fun _ => sampleOrder)
      [zone "example.com", zone "example.org"] apexDelete).isNone = true ∧
    ApplyChanges ttlIsConfigured okRemote (fun _ => sampleOrder) apexDelete =
      ⟨[], .panicked⟩ := by
  refine ⟨?_, ?_, ?_⟩ <;> decide

/-! ## Bucket emission -/

theorem writeLoop_all_ok (r : Remote) (bulk : Bulk) (order : List GoString)
    (hok : ∀ d ∈ order, bulk.get d ≠ [] → BulkUpdateRRSet r d (bulk.get d) = some none) :
    writeLoop r bulk order =
      ⟨(order.filter (fun d => decide (bulk.get d ≠ []))).map (fun d => (d, bulk.get d)),
       .returned none⟩ := by
  induction order with
  | nil => simp [writeLoop]
  | cons d rest ih =>
    have ih1 := ih (fun k hk => hok k (List.mem_cons_of_mem _ hk))
    simp only [writeLoop]
    by_cases hlen : (bulk.get d).length = 0
    · have hnil : bulk.get d = [] := List.length_eq_zero.1 hlen
      rw [if_pos hlen, ih1]
      simp [List.filter, hnil]
    · have hne : bulk.get d ≠ [] := fun h => hlen (by rw [h]; rfl)
      rw [if_neg hlen, hok d (by simp) hne, ih1]
      simp [List.filter, hne]

theorem writeLoop_all_empty (r : Remote) (bulk : Bulk) (order : List GoString)
    (hempty : ∀ d ∈ order, bulk.get d = []) :
    writeLoop r bulk order = ⟨[], .returned none⟩ := by
  induction order with
  | nil => simp [writeLoop]
  | cons d rest ih =>
    simp only [writeLoop]
    rw [if_pos (by rw [hempty d (by simp)]; rfl)]
    exact ih (fun k hk => hempty k (List.mem_cons_of_mem _ hk))

theorem count_calls (order : List GoString) (hn : order.Nodup) (p : GoString → Bool)
    (f : GoString → RRSets) (z : GoString) :
    (((order.filter p).map (fun d => (d, f d))).filter
        (fun q => decide (q.1 = z))).length =
      if z ∈ order ∧ p z = true then 1 else 0 := by
  induction order with
  | nil => simp
  | cons d rest ih =>
    have hd : d ∉ rest := (List.nodup_cons.1 hn).1
    have ih1 := ih (List.nodup_cons.1 hn).2
    by_cases hdz : d = z
    · subst hdz
      by_cases hp : p d = true
      · simp [List.filter_cons, hp, hd] at ih1 ⊢
        exact ih1
      · simp [List.filter_cons, hp, hd] at ih1 ⊢
        exact ih1
    · have hzd : ¬ z = d := fun h => hdz h.symm
      by_cases hp : p d = true
      · simp [List.filter_cons, hp, hdz, hzd] at ih1 ⊢
        exact ih1
      · simp [List.filter_cons, hp, hdz, hzd] at ih1 ⊢
        exact ih1

theorem count_keys {keys order : List GoString} (horder : IsKeyOrder keys order)
    (p : GoString → Bool) (f : GoString → RRSets) (z : GoString) :
    (((order.filter p).map (fun d => (d, f d))).filter
        (fun q => decide (q.1 = z))).length =
      if z ∈ keys ∧ p z = true then 1 else 0 := by
  have hperm : order.Perm keys.dedup := horder
  have hn : order.Nodup := hperm.nodup_iff.2 (List.nodup_dedup keys)
  have hmem : z ∈ order ↔ z ∈ keys := by rw [hperm.mem_iff, List.mem_dedup]
  rw [count_calls order hn]
  simp only [hmem]

theorem addToBulk_no_match (ic : Int → Bool) (cs : List Endpoint) :
    ∀ (iter : Nat → List GoString) (bulk : Bulk),
      (∀ n, ∀ d ∈ iter n, ∀ c ∈ cs, HasSuffix c.DNSName d = false) →
      addToBulk ic iter bulk cs = some bulk := by
  induction cs with
  | nil => intro iter bulk _; rfl
  | cons c rest ih =>
    intro iter bulk h
    have hz : zoneOf (iter 0) c = none := by
      unfold zoneOf
      rw [List.find?_eq_none]
      intro d hd
      simp [h 0 d hd c (by simp)]
    simp only [addToBulk, addChange_eq, hz]
    exact ih _ bulk (fun n d hd x hx => h (n + 1) d hd x (List.mem_cons_of_mem _ hx))

theorem deleteLoop_no_match (ic : Int → Bool) (cs : List Endpoint) :
    ∀ (iter : Nat → List GoString) (bulk : Bulk),
      (∀ n, ∀ d ∈ iter n, ∀ c ∈ cs, HasSuffix c.DNSName d = false) →
      deleteLoop ic iter bulk cs = some bulk := by
  induction cs with
  | nil => intro iter bulk _; rfl
  | cons c rest ih =>
    intro iter bulk h
    have hz : zoneOf (iter 0) { c with Targets := [] } = none := by
      unfold zoneOf
      rw [List.find?_eq_none]
      intro d hd
      simp [h 0 d hd c (by simp)]
    simp only [deleteLoop, addToBulk_single, addChange_eq, hz]
    exact ih _ bulk (fun n d hd x hx => h (n + 1) d hd x (List.mem_cons_of_mem _ hx))

/-- Bucket emission in the runs whose bucket construction completes: when the zone
listing succeeds and the final loop visits every key of the map once, then (1) if the
buckets are built and no write of a non-empty bucket fails, `ApplyChanges` returns `nil`,
the number of `BulkUpdateRRSet` calls for a zone is one if it is a listed zone with a
non-empty bucket and zero otherwise, and every call submits the bucket of its zone;
(2) if no change ends with the name of any listed zone, no call is made at all. -/
theorem ApplyChanges_writes_nonempty_once (ic : Int → Bool) (r : Remote)
    (iter : Nat → List GoString) (changes : Changes) (domains : List DNSDomain)
    (hdom : GetDNSDomains r = some (.ok domains))
    (horder : ∀ n, IsKeyOrder (domains.map DNSDomain.Name) (iter n)) :
    (∀ bulk, buildBulk ic iter domains changes = some bulk →
      (∀ z ∈ iter changes.size, bulk.get z ≠ [] →
        BulkUpdateRRSet r z (bulk.get z) = some none) →
      (ApplyChanges ic r iter changes).outcome = .returned none ∧
      (∀ z, ((ApplyChanges ic r iter changes).calls.filter
          (fun p => decide (p.1 = z))).length =
        if z ∈ domains.map DNSDomain.Name ∧ bulk.get z ≠ [] then 1 else 0) ∧
      ∀ p ∈ (ApplyChanges ic r iter changes).calls, p.2 = bulk.get p.1) ∧
    ((∀ c ∈ changes.Create ++ changes.UpdateNew ++ changes.Delete,
        ∀ k ∈ domains.map DNSDomain.Name, HasSuffix c.DNSName k = false) →
      ApplyChanges ic r iter changes = ⟨[], .returned none⟩) := by
  constructor
  · intro bulk hbulk hok
    have hrun : ApplyChanges ic r iter changes = writeLoop r bulk (iter changes.size) := by
      simp only [ApplyChanges, hdom, hbulk]
    rw [hrun, writeLoop_all_ok r bulk _ hok]
    refine ⟨rfl, ?_, ?_⟩
    · intro z
      rw [count_keys (horder changes.size)]
      simp
    · intro p hp
      simp only [List.mem_map, List.mem_filter] at hp
      obtain ⟨d, _, hd⟩ := hp
      rw [← hd]
  · intro hno
    have hmem : ∀ n, ∀ d ∈ iter n, d ∈ domains.map DNSDomain.Name := by
      intro n d hd
      exact List.mem_dedup.1 ((horder n).mem_iff.1 hd)
    have h1 : addToBulk ic iter (initBulk domains) changes.Create =
        some (initBulk domains) :=
      addToBulk_no_match ic _ _ _
        (fun n d hd c hc => hno c (by simp [hc]) d (hmem _ d hd))
    have h2 : addToBulk ic (fun n => iter (n + changes.Create.length)) (initBulk domains)
        changes.UpdateNew = some (initBulk domains) :=
      addToBulk_no_match ic _ _ _
        (fun n d hd c hc => hno c (by simp [hc]) d (hmem _ d hd))
    have h3 : deleteLoop ic
        (fun n => iter (n + (changes.Create.length + changes.UpdateNew.length)))
        (initBulk domains) changes.Delete = some (initBulk domains) :=
      deleteLoop_no_match ic _ _ _
        (fun n d hd c hc => hno c (by simp [hc]) d (hmem _ d hd))
    have hbulk : buildBulk ic iter domains changes = some (initBulk domains) := by
      simp only [buildBulk, h1, h2, h3]
    simp only [ApplyChanges, hdom, hbulk]
    exact writeLoop_all_empty r _ _ (fun d _ => initBulk_get domains d)

theorem okRemote_accepts (z : GoString) (rrsets : RRSets) :
    BulkUpdateRRSet okRemote z rrsets = some none := rfl

/-- The sample change set against `okRemote` gives one write, for `example.com`; the
change set with foreign names gives none. -/
theorem ApplyChanges_writes_nonempty_once_witness :
    GetDNSDomains okRemote = some (.ok [zone "example.com", zone "example.org"]) ∧
    (∃ bulk, buildBulk ttlIsConfigured (fun _ => sampleOrder)
        [zone "example.com", zone "example.org"] sampleChanges = some bulk ∧
      (ApplyChanges ttlIsConfigured okRemote (fun _ => sampleOrder)
        sampleChanges).outcome = .returned none ∧
      (∀ z, ((ApplyChanges ttlIsConfigured okRemote (fun _ => sampleOrder)
          sampleChanges).calls.filter (fun p => decide (p.1 = z))).length =
        if z ∈ [zone "example.com", zone "example.org"].map DNSDomain.Name ∧
            bulk.get z ≠ [] then 1 else 0) ∧
      ∀ p ∈ (ApplyChanges ttlIsConfigured okRemote (fun _ => sampleOrder)
          sampleChanges).calls, p.2 = bulk.get p.1) ∧
    ApplyChanges ttlIsConfigured okRemote (fun _ => sampleOrder) foreignChanges =
      ⟨[], .returned none⟩ := by
  have hsome : (buildBulk ttlIsConfigured (fun _ => sampleOrder)
      [zone "example.com", zone "example.org"] sampleChanges).isSome = true := by decide
  obtain ⟨bulk, h⟩ := Option.isSome_iff_exists.1 hsome
  have horder : ∀ n : Nat, IsKeyOrder
      ([zone "example.com", zone "example.org"].map DNSDomain.Name)
      ((fun _ => sampleOrder) n) := by
    intro n
    show List.Perm sampleOrder
      ([zone "example.com", zone "example.org"].map DNSDomain.Name).dedup
    decide
  refine ⟨rfl, ⟨bulk, h, ?_⟩, ?_⟩
  · exact (ApplyChanges_writes_nonempty_once ttlIsConfigured okRemote
      (fun _ => sampleOrder) sampleChanges _ rfl horder).1 bulk h
      (fun z _ _ => okRemote_accepts z _)
  · exact (ApplyChanges_writes_nonempty_once ttlIsConfigured okRemote
      (fun _ => sampleOrder) foreignChanges _ rfl horder).2 (by decide)

/-- C7 (evaluation at the failing input): `okRemote` accepts every write and lists
`example.com`; the creates are `www.example.com` and the apex record `example.com`.  The
first create alone leaves one RRSet in the bucket of `example.com`, the second makes the
slice expression of `addToBulk` panic, and `ApplyChanges` ends in that panic without a
single call of `BulkUpdateRRSet`, although a bucket is non-empty and no write fails. -/
theorem ApplyChanges_apex_create_no_writes :
    (addToBulk ttlIsConfigured (fun _ => sampleOrder)
        (initBulk [zone "example.com", zone "example.org"])
        (apexCreate.Create.take 1)).map
      (fun bulk => (bulk.get "example.com".toList).length) = some 1 ∧
    BulkUpdateRRSet okRemote "example.com".toList [] = some none ∧
    ApplyChanges ttlIsConfigured okRemote (fun _ => sampleOrder) apexCreate =
      ⟨[], .panicked⟩ := by
  refine ⟨?_, ?_, ?_⟩
  · decide
  · rfl
  · decide

/-! ## Write failures -/

theorem request_rejected {α : Type} (quote : GoString → GoString)
    (send : GoString → Response α) (method : GoString) (c : Char) (t : GoString)
    (status : Int) (body : GoString) (decode : Except GoString α)
    (hc : c ≠ '/') (hs : status < 200 ∨ status > 299)
    (hresp : send (baseURL ++ ("/".toList ++ c :: t)) = .reply status (.ok body) decode) :
    request quote send method (c :: t) =
      some (.error (method ++ " ".toList ++ ("/".toList ++ c :: t) ++
        " error: ".toList ++ quote body)) := by
  unfold request
  simp only [ne_eq, hc, not_false_eq_true, if_true, hresp, hs]

theorem request_unreadable {α : Type} (quote : GoString → GoString)
    (send : GoString → Response α) (method : GoString) (c : Char) (t : GoString)
    (status : Int) (e : GoString) (decode : Except GoString α)
    (hc : c ≠ '/') (hs : status < 200 ∨ status > 299)
    (hresp : send (baseURL ++ ("/".toList ++ c :: t)) = .reply status (.error e) decode) :
    request quote send method (c :: t) =
      some (.error (method ++ " ".toList ++ ("/".toList ++ c :: t) ++
        " unknown error occured".toList)) := by
  unfold request
  simp only [ne_eq, hc, not_false_eq_true, if_true, hresp, hs]

theorem putPath (z : GoString) :
    "domains/".toList ++ z ++ "/rrsets/".toList =
      'd' :: ("omains/".toList ++ z ++ "/rrsets/".toList) := rfl

theorem putURL (z : GoString) :
    baseURL ++ ("/".toList ++ 'd' :: ("omains/".toList ++ z ++ "/rrsets/".toList)) =
      baseURL ++ "/domains/".toList ++ z ++ "/rrsets/".toList := by
  simp [List.append_assoc]

/-- What `BulkUpdateRRSet` returns when the response has a status outside 200..299 and a
readable body. -/
theorem BulkUpdateRRSet_rejected (r : Remote) (z : GoString) (rrsets : RRSets)
    (raw : GoString) (status : Int) (body : GoString) (decode : Except GoString RRSets)
    (hraw : r.marshal rrsets = .ok raw) (hs : status < 200 ∨ status > 299)
    (hresp : r.putRRSets (baseURL ++ "/domains/".toList ++ z ++ "/rrsets/".toList) raw =
      .reply status (.ok body) decode) :
    BulkUpdateRRSet r z rrsets =
      some (some ("PUT /domains/".toList ++ z ++ "/rrsets/ error: ".toList ++
        r.quote body)) := by
  have hreq := request_rejected r.quote (fun url => r.putRRSets url raw) "PUT".toList
    'd' ("omains/".toList ++ z ++ "/rrsets/".toList) status body decode (by decide) hs
    (by simp only [putURL]; exact hresp)
  unfold BulkUpdateRRSet
  rw [hraw]
  simp only
  rw [putPath, hreq]
  simp [List.append_assoc]

/-- What `BulkUpdateRRSet` returns when the response has a status outside 200..299 and
its body cannot be read. -/
theorem BulkUpdateRRSet_unreadable (r : Remote) (z : GoString) (rrsets : RRSets)
    (raw : GoString) (status : Int) (e : GoString) (decode : Except GoString RRSets)
    (hraw : r.marshal rrsets = .ok raw) (hs : status < 200 ∨ status > 299)
    (hresp : r.putRRSets (baseURL ++ "/domains/".toList ++ z ++ "/rrsets/".toList) raw =
      .reply status (.error e) decode) :
    BulkUpdateRRSet r z rrsets =
      some (some ("PUT /domains/".toList ++ z ++
        "/rrsets/ unknown error occured".toList)) := by
  have hreq := request_unreadable r.quote (fun url => r.putRRSets url raw) "PUT".toList
    'd' ("omains/".toList ++ z ++ "/rrsets/".toList) status e decode (by decide) hs
    (by simp only [putURL]; exact hresp)
  unfold BulkUpdateRRSet
  rw [hraw]
  simp only
  rw [putPath, hreq]
  simp [List.append_assoc]

theorem writeLoop_fail (r : Remote) (bulk : Bulk) (pre post : List GoString)
    (z err : GoString)
    (hpre : ∀ d ∈ pre, bulk.get d ≠ [] → BulkUpdateRRSet r d (bulk.get d) = some none)
    (hz : bulk.get z ≠ [])
    (hfail : BulkUpdateRRSet r z (bulk.get z) = some (some err)) :
    writeLoop r bulk (pre ++ z :: post) =
      ⟨(pre.filter (fun d => decide (bulk.get d ≠ []))).map (fun d => (d, bulk.get d)) ++
         [(z, bulk.get z)],
       .returned (some err)⟩ := by
  induction pre with
  | nil =>
    have hlen : ¬ (bulk.get z).length = 0 := fun h => hz (List.length_eq_zero.1 h)
    simp only [List.nil_append, writeLoop, if_neg hlen, hfail]
    simp
  | cons d rest ih =>
    have ih1 := ih (fun k hk => hpre k (List.mem_cons_of_mem _ hk))
    show writeLoop r bulk (d :: (rest ++ z :: post)) = _
    rw [writeLoop]
    by_cases hlen : (bulk.get d).length = 0
    · have hnil : bulk.get d = [] := List.length_eq_zero.1 hlen
      rw [if_pos hlen, ih1]
      simp [List.filter, hnil]
    · have hne : bulk.get d ≠ [] := fun h => hlen (by rw [h]; rfl)
      rw [if_neg hlen, hpre d (by simp) hne, ih1]
      simp [List.filter, hne]

/-- C9 (counterexample): the write for `example.com` is answered with the status 500 and
reading the response body fails with `connection reset by peer`; `ApplyChanges` returns
the error `PUT /domains/example.com/rrsets/ unknown error occured`, in which the cause
does not occur. -/
theorem ApplyChanges_unreadable_body_drops_cause :
    (ApplyChanges ttlIsConfigured unreadableRemote (fun _ => sampleOrder)
        sampleChanges).calls.map Prod.fst = ["example.com".toList] ∧
    (ApplyChanges ttlIsConfigured unreadableRemote (fun _ => sampleOrder)
        sampleChanges).outcome =
      .returned (some "PUT /domains/example.com/rrsets/ unknown error occured".toList) ∧
    ¬ ("connection reset by peer".toList <:+:
        "PUT /domains/example.com/rrsets/ unknown error occured".toList) := by
  refine ⟨?_, ?_, ?_⟩ <;> decide

/-- C9 (amended): if the write for zone `z` is the first one that fails, the zones
visited before it having empty buckets or successful writes, then `ApplyChanges` has
called `BulkUpdateRRSet` for the non-empty zones before `z` and for `z`, calls it for no
zone after `z`, and returns the error of that write unchanged.  When the response had a
status outside 200..299 and a readable body, this error is
`PUT /domains/<z>/rrsets/ error: ` followed by the body as quoted by `%q`; when the body
could not be read it is `PUT /domains/<z>/rrsets/ unknown error occured`. -/
theorem ApplyChanges_write_failure (ic : Int → Bool) (r : Remote)
    (iter : Nat → List GoString) (changes : Changes) (domains : List DNSDomain)
    (bulk : Bulk) (pre post : List GoString) (z err : GoString)
    (hdom : GetDNSDomains r = some (.ok domains))
    (hbulk : buildBulk ic iter domains changes = some bulk)
    (horder : iter changes.size = pre ++ z :: post)
    (hpre : ∀ d ∈ pre, bulk.get d ≠ [] → BulkUpdateRRSet r d (bulk.get d) = some none)
    (hz : bulk.get z ≠ [])
    (hfail : BulkUpdateRRSet r z (bulk.get z) = some (some err)) :
    ApplyChanges ic r iter changes =
      ⟨(pre.filter (fun d => decide (bulk.get d ≠ []))).map (fun d => (d, bulk.get d)) ++
         [(z, bulk.get z)],
       .returned (some err)⟩ ∧
    (∀ raw status body decode, r.marshal (bulk.get z) = .ok raw →
      (status < 200 ∨ status > 299) →
      r.putRRSets (baseURL ++ "/domains/".toList ++ z ++ "/rrsets/".toList) raw =
        .reply status (.ok body) decode →
      err = "PUT /domains/".toList ++ z ++ "/rrsets/ error: ".toList ++ r.quote body) ∧
    (∀ raw status e decode, r.marshal (bulk.get z) = .ok raw →
      (status < 200 ∨ status > 299) →
      r.putRRSets (baseURL ++ "/domains/".toList ++ z ++ "/rrsets/".toList) raw =
        .reply status (.error e) decode →
      err = "PUT /domains/".toList ++ z ++ "/rrsets/ unknown error occured".toList) := by
  refine ⟨?_, ?_, ?_⟩
  · simp only [ApplyChanges, hdom, hbulk, horder]
    exact writeLoop_fail r bulk pre post z err hpre hz hfail
  · intro raw status body decode hraw hs hresp
    rw [BulkUpdateRRSet_rejected r z _ raw status body decode hraw hs hresp] at hfail
    exact (Option.some.inj (Option.some.inj hfail)).symm
  · intro raw status e decode hraw hs hresp
    rw [BulkUpdateRRSet_unreadable r z _ raw status e decode hraw hs hresp] at hfail
    exact (Option.some.inj (Option.some.inj hfail)).symm

/-- Witness of C9 (amended): `rejectingRemote` answers the write for `example.com` with
the status 400 and the body `bad record`. -/
theorem ApplyChanges_write_failure_witness :
    ∃ bulk, buildBulk ttlIsConfigured (fun _ => sampleOrder)
        [zone "example.com", zone "example.org"] sampleChanges = some bulk ∧
      bulk.get "example.com".toList ≠ [] ∧
      ApplyChanges ttlIsConfigured rejectingRemote (fun _ => sampleOrder) sampleChanges =
        ⟨(["example.org".toList].filter (fun d => decide (bulk.get d ≠ []))).map
            (fun d => (d, bulk.get d)) ++
           [("example.com".toList, bulk.get "example.com".toList)],
         .returned (some ("PUT /domains/".toList ++ "example.com".toList ++
           "/rrsets/ error: ".toList ++ rejectingRemote.quote "bad record".toList))⟩ := by
  have hsome : (buildBulk ttlIsConfigured (fun _ => sampleOrder)
      [zone "example.com", zone "example.org"] sampleChanges).isSome = true := by decide
  obtain ⟨bulk, h⟩ := Option.isSome_iff_exists.1 hsome
  have horg : (buildBulk ttlIsConfigured (fun _ => sampleOrder)
      [zone "example.com", zone "example.org"] sampleChanges).map
      (fun b => b.get "example.org".toList) = some [] := by decide
  have hcom : ((buildBulk ttlIsConfigured (fun _ => sampleOrder)
      [zone "example.com", zone "example.org"] sampleChanges).map
      (fun b => (b.get "example.com".toList).length)) = some 3 := by decide
  rw [h] at horg hcom
  simp only [Option.map_some', Option.some.injEq] at horg hcom
  have hz : bulk.get "example.com".toList ≠ [] := by
    intro hnil
    rw [hnil] at hcom
    simp at hcom
  have hfail := BulkUpdateRRSet_rejected rejectingRemote "example.com".toList
    (bulk.get "example.com".toList) "[]".toList 400 "bad record".toList
    (.error "invalid character".toList) rfl (by decide) rfl
  exact ⟨bulk, h, hz,
    (ApplyChanges_write_failure ttlIsConfigured rejectingRemote (fun _ => sampleOrder)
      sampleChanges [zone "example.com", zone "example.org"] bulk
      ["example.org".toList] [] "example.com".toList _ rfl h rfl
      (by
        intro d hd hne
        simp only [List.mem_singleton] at hd
        subst hd
        exact absurd horg hne)
      hz hfail).1⟩

/-! ## The read path -/

/-- The endpoints that `Records` makes of one RRSet listing: one per RRSet of a
supported type, carrying its Name, Type, TTL and Records. -/
theorem appendEndpoints_eq (supported : GoString → Bool) (rrsets : RRSets) :
    ∀ endpoints : List Endpoint,
      appendEndpoints supported endpoints rrsets =
        endpoints ++ (rrsets.filter (fun rr => supported rr.Type_)).map
          (fun rr => { DNSName := rr.Name, Targets := rr.Records.getD [],
                       RecordType := rr.Type_, RecordTTL := rr.TTL }) := by
  induction rrsets with
  | nil => intro endpoints; simp [appendEndpoints]
  | cons rr rest ih =>
    intro endpoints
    have hstep : appendEndpoints supported endpoints (rr :: rest) =
        appendEndpoints supported
          (if !supported rr.Type_ then endpoints
           else endpoints ++ [NewEndpointWithTTL rr.Name rr.Type_ rr.TTL
             (rr.Records.getD [])]) rest := rfl
    rw [hstep, ih]
    cases hs : supported rr.Type_ <;> simp [List.filter, hs, NewEndpointWithTTL]

theorem recordsLoop_ok (r : Remote) (supported : GoString → Bool)
    (listing : GoString → RRSets) (zones : List DNSDomain) :
    ∀ endpoints : List Endpoint,
      (∀ z ∈ zones, GetAllRRSets r z.Name = some (.ok (listing z.Name))) →
      recordsLoop r supported endpoints zones =
        some (endpoints ++ zones.flatMap (fun z =>
          ((listing z.Name).filter (fun rr => supported rr.Type_)).map
            (fun rr => { DNSName := rr.Name, Targets := rr.Records.getD [],
                         RecordType := rr.Type_, RecordTTL := rr.TTL })), none) := by
  induction zones with
  | nil => intro endpoints _; simp [recordsLoop]
  | cons z rest ih =>
    intro endpoints h
    simp only [recordsLoop, h z (by simp)]
    rw [ih _ (fun k hk => h k (List.mem_cons_of_mem _ hk)), appendEndpoints_eq]
    simp [List.flatMap_cons, List.append_assoc]

theorem recordsLoop_fail (r : Remote) (supported : GoString → Bool)
    (pre post : List DNSDomain) (z : DNSDomain) (e : GoString)
    (hz : GetAllRRSets r z.Name = some (.error e)) :
    ∀ endpoints : List Endpoint,
      (∀ d ∈ pre, ∃ l, GetAllRRSets r d.Name = some (.ok l)) →
      recordsLoop r supported endpoints (pre ++ z :: post) = some ([], some e) := by
  induction pre with
  | nil => intro endpoints _; simp [recordsLoop, hz]
  | cons d rest ih =>
    intro endpoints h
    obtain ⟨l, hl⟩ := h d (by simp)
    show recordsLoop r supported endpoints (d :: (rest ++ z :: post)) = _
    rw [recordsLoop]
    simp only [hl]
    exact ih _ (fun k hk => h k (List.mem_cons_of_mem _ hk))

/-- C10: let `zones` be the managed zones that `Domains` returns.  (1) If the RRSets of
every zone are fetched, `Records` returns no error and the endpoints of the zones in
zone order, those of one zone being one endpoint per RRSet of a supported type, in RRSet
order, with the Name, Type, TTL and Records of the RRSet; RRSets of other types give
nothing.  (2) If the fetch for a zone fails after the fetches for the zones before it
succeeded, `Records` returns that error and no endpoint. -/
theorem Records_materializes (r : Remote) (domainFilter supported : GoString → Bool)
    (zones : List DNSDomain) (hzones : Domains r domainFilter = some (.ok zones)) :
    (∀ listing : GoString → RRSets,
      (∀ z ∈ zones, GetAllRRSets r z.Name = some (.ok (listing z.Name))) →
      Records r domainFilter supported =
        some (zones.flatMap (fun z =>
          ((listing z.Name).filter (fun rr => supported rr.Type_)).map
            (fun rr => { DNSName := rr.Name, Targets := rr.Records.getD [],
                         RecordType := rr.Type_, RecordTTL := rr.TTL })), none)) ∧
    (∀ pre post z e, zones = pre ++ z :: post →
      (∀ d ∈ pre, ∃ l, GetAllRRSets r d.Name = some (.ok l)) →
      GetAllRRSets r z.Name = some (.error e) →
      Records r domainFilter supported = some ([], some e)) := by
  constructor
  · intro listing h
    simp only [Records, hzones]
    rw [recordsLoop_ok r supported listing zones [] h]
    simp
  · intro pre post z e hsplit hpre hz
    simp only [Records, hzones]
    rw [hsplit]
    exact recordsLoop_fail r supported pre post z e hz [] hpre

/-- Witness of C10: `okRemote` lists two zones with four RRSets, one of them of the
unsupported type `RRSIG`; `missingZoneRemote` fails the fetch for the second zone. -/
theorem Records_materializes_witness :
    Domains okRemote (fun _ => true) =
      some (.ok [zone "example.com", zone "example.org"]) ∧
    Records okRemote (fun _ => true) sampleSupported =
      some ([ep "www.example.com" "A" 300 ["1.2.3.4"],
             ep "txt.example.com" "TXT" 3600 ["v=1"],
             ep "example.org" "A" 60 ["5.6.7.8"]], none) ∧
    Records missingZoneRemote (fun _ => true) sampleSupported =
      some ([], some ("GET /domains/example.org/rrsets/ error: ".toList ++
        missingZoneRemote.quote "not found".toList)) :=
  ⟨rfl,
   ((Records_materializes okRemote (fun _ => true) sampleSupported
      [zone "example.com", zone "example.org"] rfl).1 sampleListing
      (by
        intro z hz
        simp only [List.mem_cons, List.mem_singleton, List.not_mem_nil, or_false] at hz
        rcases hz with rfl | rfl <;> rfl)).trans (by decide),
   (Records_materializes missingZoneRemote (fun _ => true) sampleSupported
      [zone "example.com", zone "example.org"] rfl).2
      [zone "example.com"] [] (zone "example.org") _ rfl
      (by
        intro d hd
        simp only [List.mem_singleton] at hd
        subst hd
        exact ⟨sampleListing "example.com".toList, rfl⟩)
      rfl⟩

end Desec
